import Mathlib

/-!
Verification of the structured-output-cookbook extraction pipeline.

The development shallowly embeds the Python modules
`structured_output_cookbook/extractor.py` and
`structured_output_cookbook/config.py`:

* JSON values (Python dicts/lists/scalars as produced by `json.loads` /
  `model_json_schema()` / YAML loading) are the mutual inductive `Json`,
  with dicts as insertion-ordered association lists, matching Python
  `dict` semantics (`d[k] = v` overwrites in place or appends).
* `StructuredExtractor._ensure_additional_properties_false` is the pure
  transform `ensureAPF` (the Python function mutates a tree of dicts in
  place; on tree-shaped input the final value of the argument is exactly
  the returned tree).  A second, heap-based embedding near the end of the
  file models the reference/aliasing behaviour needed for the
  shallow-copy claim about `extract_with_yaml_schema`.
* `StructuredExtractor.extract` and
  `StructuredExtractor.extract_with_yaml_schema` are total functions that
  also return the list of provider requests issued, so that claims about
  retries, caching, and call counts are statable.  The OpenAI client and
  `json.loads` are external dependencies and enter as function-valued
  parameters (`provider`, `parse`).
-/
/-! JSON / Python values.  Dicts are ordered association lists. -/
mutual
inductive Json where
  | null : Json
  | bool : Bool → Json
  | num : Int → Json
  | str : String → Json
  | arr : JsonList → Json
  | obj : JsonFields → Json
inductive JsonList where
  | nil : JsonList
  | cons : Json → JsonList → JsonList
inductive JsonFields where
  | nil : JsonFields
  | cons : String → Json → JsonFields → JsonFields
end

/-- Python `d.get(key)` on an ordered dict: first matching key. -/
def lookupKey : JsonFields → String → Option Json
  | .nil, _ => none
  | .cons k v rest, key => if k = key then some v else lookupKey rest key

/-- Python `d[key] = val` on an ordered dict: overwrite the existing entry in
place, else append at the end (Python insertion-order semantics). -/
def setKey : JsonFields → String → Json → JsonFields
  | .nil, key, val => .cons key val .nil
  | .cons k v rest, key, val =>
    if k = key then .cons k val rest else .cons k v (setKey rest key val)

/-- Source line 159: `schema_dict.get("type") == "object"`. -/
def isStrObject : Option Json → Bool
  | some (Json.str s) => s == "object"
  | _ => false

/-- Source line 164: `key in ["properties", "items", "anyOf", "allOf", "oneOf"]`. -/
def isSpecialKey (k : String) : Bool :=
  k == "properties" || k == "items" || k == "anyOf" || k == "allOf" || k == "oneOf"

/-!
`_ensure_additional_properties_false(schema_dict)` (extractor.py lines
156-172), as a pure transform.  The Python code first performs
`schema_dict["additionalProperties"] = False` when the node is
object-typed and then iterates over the (already updated) entries; since
recursing into the added boolean entry is a no-op and the update touches
no other entry, performing the key update after the entry recursion
yields the same dict, which keeps the recursion structural.
-/
mutual
def ensureAPF : Json → Json
  | .obj fields =>
    if isStrObject (lookupKey fields "type") then
      .obj (setKey (ensureFields fields) "additionalProperties" (.bool false))
    else
      .obj (ensureFields fields)
  | j => j
def ensureFields : JsonFields → JsonFields
  | .nil => .nil
  | .cons k v rest => .cons k (ensureEntry k v) (ensureFields rest)
def ensureEntry : String → Json → Json
  | _, .obj fs =>
    if isStrObject (lookupKey fs "type") then
      .obj (setKey (ensureFields fs) "additionalProperties" (.bool false))
    else
      .obj (ensureFields fs)
  | k, .arr items => if isSpecialKey k then .arr (ensureItems items) else .arr items
  | _, v => v
def ensureItems : JsonList → JsonList
  | .nil => .nil
  | .cons v rest => .cons (ensureItem v) (ensureItems rest)
def ensureItem : Json → Json
  | .obj fs =>
    if isStrObject (lookupKey fs "type") then
      .obj (setKey (ensureFields fs) "additionalProperties" (.bool false))
    else
      .obj (ensureFields fs)
  | j => j
end

/-- The common body of `ensureAPF`/`ensureEntry`/`ensureItem` on a dict. -/
def ensureObj (fs : JsonFields) : Json :=
  if isStrObject (lookupKey fs "type") then
    .obj (setKey (ensureFields fs) "additionalProperties" (.bool false))
  else
    .obj (ensureFields fs)

/-- A dict body satisfies the closed-object condition: if its `type` is
`"object"` then its `additionalProperties` entry is `false`. -/
def objClosed (fs : JsonFields) : Bool :=
  if isStrObject (lookupKey fs "type") then
    match lookupKey fs "additionalProperties" with
    | some (.bool false) => true
    | _ => false
  else true

/-!
`closedWalk` checks the closed-object condition on exactly the
sub-mappings that the recursion of `_ensure_additional_properties_false`
visits: dict-valued entries under any key, and dict elements of
list-valued entries under `properties`/`items`/`anyOf`/`allOf`/`oneOf`.
-/
mutual
def closedWalk : Json → Bool
  | .obj fs => objClosed fs && closedWalkFields fs
  | _ => true
def closedWalkFields : JsonFields → Bool
  | .nil => true
  | .cons k v rest => closedWalkEntry k v && closedWalkFields rest
def closedWalkEntry : String → Json → Bool
  | _, .obj fs => objClosed fs && closedWalkFields fs
  | k, .arr items => if isSpecialKey k then closedWalkItems items else true
  | _, _ => true
def closedWalkItems : JsonList → Bool
  | .nil => true
  | .cons v rest => closedWalkItem v && closedWalkItems rest
def closedWalkItem : Json → Bool
  | .obj fs => objClosed fs && closedWalkFields fs
  | _ => true
end

/-!
`closedAll` checks the closed-object condition on every sub-mapping at
any nesting depth, recursing through all dict values and all list
elements regardless of key — the reading of the spec's "at any nesting
depth".
-/
mutual
def closedAll : Json → Bool
  | .obj fs => objClosed fs && closedAllFields fs
  | .arr items => closedAllItems items
  | _ => true
def closedAllFields : JsonFields → Bool
  | .nil => true
  | .cons _ v rest => closedAll v && closedAllFields rest
def closedAllItems : JsonList → Bool
  | .nil => true
  | .cons v rest => closedAll v && closedAllItems rest
end

def fieldsKeys : JsonFields → List String
  | .nil => []
  | .cons k _ rest => k :: fieldsKeys rest

def objKeys : Json → List String
  | .obj fs => fieldsKeys fs
  | _ => []

/-- A schema whose only nested object-typed mapping sits inside a
list-valued entry under the non-special key "k":
`\x7b"k": [\x7b"type": "object"\x7d]\x7d`. -/
def deepListSchema : Json :=
  .obj (.cons "k" (.arr (.cons (.obj (.cons "type" (.str "object") .nil)) .nil)) .nil)

def smallNonObjFields : JsonFields := JsonFields.cons "a" (Json.str "x") JsonFields.nil

/-!
The extraction orchestrator (`StructuredExtractor`, extractor.py).
-/
/-- Application configuration (config.py lines 11-19), with the source's
field defaults. -/
structure Config where
  openai_api_key : String
  openai_model : String := "gpt-4o-2024-08-06"
  max_retries : Nat := 3
  timeout_seconds : Nat := 30
  log_level : String := "INFO"
  log_format : String := "json"

/-- Modelled from the spec: the typed schema interface of
`schemas/base.py` (not under src/; templates subclass it).  Behaviour
contract per the spec: a name, a default extraction prompt, a
JSON-Schema-shaped mapping (`model_json_schema()`), and a validator that
accepts a raw decoded JSON value and either fails with a
validation-error message or returns the typed value serialized back to a
plain mapping (`schema(**raw).model_dump()`). -/
structure PySchema where
  schemaName : String
  extractionPrompt : String
  jsonSchema : Json
  validateRaw : Json → Except String Json

/-- A loaded YAML schema (`utils.YamlSchema`): name, system prompt, and
raw JSON-Schema-shaped mapping. -/
structure YamlSchemaPure where
  name : String
  system_prompt : String
  schema : Json

/-- Modelled from the spec: the uniform Extraction Result of
`schemas/base.py` (not under src/): success flag, optional data mapping,
optional error message, optional model identifier, optional token-usage
count; two constructors, no other construction path. -/
structure ExtractionResult where
  success : Bool
  data : Option Json
  error : Option String
  model_used : Option String
  tokens_used : Option Nat

def ExtractionResult.success_result (data : Json) (model_used : Option String)
    (tokens_used : Option Nat) : ExtractionResult :=
  ⟨true, some data, none, model_used, tokens_used⟩

def ExtractionResult.error_result (msg : String) : ExtractionResult :=
  ⟨false, none, some msg, none, none⟩

/-- Outcome of one `chat.completions.create` call: an exception raised by
the client (timeout, API error, ...) or a response, projected to
`choices[0].message.content`, `response.model`, and
`response.usage.total_tokens if response.usage else None`. -/
inductive ProviderResult where
  | exc (msg : String)
  | resp (content : Option String) (model : String) (usage : Option Nat)

/-- The provider request the orchestrator builds: model, system/user
messages, strict json_schema response format carrying the normalized
schema, and the configured timeout (extractor.py lines 52-67). -/
structure Request where
  model : String
  system_message : String
  user_message : String
  schema_name : String
  strict : Bool
  schema : Json
  timeout : Nat

/-- Source line 61: `schema.get_schema_name().lower().replace(" ", "_")`. -/
def pyNameId (s : String) : String := (s.toLower).replace " " "_"

/-- Source line 46: `prompt = system_prompt or schema.get_extraction_prompt()`;
Python `or` falls through both on None and on the empty string. -/
def resolvePrompt (system_prompt : Option String) (s : PySchema) : String :=
  match system_prompt with
  | some p => if p = "" then s.extractionPrompt else p
  | none => s.extractionPrompt

def requestOf (cfg : Config) (s : PySchema) (text : String)
    (system_prompt : Option String) : Request :=
  ⟨cfg.openai_model, resolvePrompt system_prompt s, text,
   pyNameId s.schemaName, true, ensureAPF s.jsonSchema, cfg.timeout_seconds⟩

def yamlRequestOf (cfg : Config) (ys : YamlSchemaPure) (text : String) : Request :=
  ⟨cfg.openai_model, ys.system_prompt, text, pyNameId ys.name, true,
   ensureAPF ys.schema, cfg.timeout_seconds⟩

/-- Source `StructuredExtractor.extract` (extractor.py lines 23-93).  `parse`
stands for the external `json.loads`; `provider` for the OpenAI client.
The second component is the list of provider calls issued: the body
issues exactly one `chat.completions.create` call, and the surrounding
try/except maps any provider exception to `error_result(str(e))`. -/
def extract (cfg : Config) (text : String) (s : PySchema)
    (system_prompt : Option String) (parse : String → Except String Json)
    (provider : Request → ProviderResult) : ExtractionResult × List Request :=
  match provider (requestOf cfg s text system_prompt) with
  | .exc msg =>
    (ExtractionResult.error_result msg, [requestOf cfg s text system_prompt])
  | .resp content model usage =>
    match content with
    | none =>
      (ExtractionResult.error_result "Empty response from LLM",
       [requestOf cfg s text system_prompt])
    | some c =>
      if c = "" then
        (ExtractionResult.error_result "Empty response from LLM",
         [requestOf cfg s text system_prompt])
      else
        match parse c with
        | .error e =>
          (ExtractionResult.error_result ("Invalid response format: " ++ e),
           [requestOf cfg s text system_prompt])
        | .ok raw =>
          match s.validateRaw raw with
          | .error e =>
            (ExtractionResult.error_result ("Invalid response format: " ++ e),
             [requestOf cfg s text system_prompt])
          | .ok dumped =>
            (ExtractionResult.success_result dumped model usage,
             [requestOf cfg s text system_prompt])

/-- Source `StructuredExtractor.extract_with_yaml_schema` (extractor.py lines
95-154).  The parsed JSON is returned as-is (no validation step). -/
def extract_with_yaml_schema (cfg : Config) (text : String)
    (ys : YamlSchemaPure) (parse : String → Except String Json)
    (provider : Request → ProviderResult) : ExtractionResult × List Request :=
  match provider (yamlRequestOf cfg ys text) with
  | .exc msg =>
    (ExtractionResult.error_result msg, [yamlRequestOf cfg ys text])
  | .resp content model usage =>
    match content with
    | none =>
      (ExtractionResult.error_result "Empty response from LLM",
       [yamlRequestOf cfg ys text])
    | some c =>
      if c = "" then
        (ExtractionResult.error_result "Empty response from LLM",
         [yamlRequestOf cfg ys text])
      else
        match parse c with
        | .error e =>
          (ExtractionResult.error_result ("Invalid JSON response: " ++ e),
           [yamlRequestOf cfg ys text])
        | .ok data =>
          (ExtractionResult.success_result data model usage,
           [yamlRequestOf cfg ys text])

/-- Two successive `extract` calls with identical (schema, prompt, text,
model); the i-th call sees the provider's i-th behaviour. -/
def extractTwice (cfg : Config) (text : String) (s : PySchema)
    (system_prompt : Option String) (parse : String → Except String Json)
    (provider : Nat → Request → ProviderResult) :
    (ExtractionResult × List Request) × (ExtractionResult × List Request) :=
  (extract cfg text s system_prompt parse (provider 0),
   extract cfg text s system_prompt parse (provider 1))

/-! Concrete fixtures used by counterexamples and witnesses. -/
def cfg0 : Config := { openai_api_key := "test-key" }

def schema0 : PySchema :=
  ⟨"Test Schema", "Extract the fields.", .obj .nil, fun j => .ok j⟩

def parseFail : String → Except String Json := fun _ => .error "Expecting value"

def timeoutProvider : Request → ProviderResult := fun _ => .exc "Request timed out."

/-- The JSON text `\x7b\x7d` (an empty object). -/
def objContent : String := "\x7b\x7d"

def parseObj : String → Except String Json :=
  fun ss => if ss = objContent then .ok (.obj .nil) else .error "Expecting value"

/-- A provider whose reported token usage differs between the first and
the second call (10, then 20), as live token counts do. -/
def driftingProvider : Nat → Request → ProviderResult :=
  fun i _ => .resp (some objContent) "gpt-4o-2024-08-06" (some (10 * (i + 1)))

def twiceRun : (ExtractionResult × List Request) × (ExtractionResult × List Request) :=
  extractTwice cfg0 "input" schema0 none parseObj driftingProvider

def steadyProvider : Nat → Request → ProviderResult :=
  fun _ _ => .resp (some objContent) "gpt-4o-2024-08-06" (some 7)

/-- The two construction paths of Extraction Results (per the spec:
"Two constructors ... No other construction path"). -/
inductive IsConstructedResult : ExtractionResult → Prop where
  | success_path : ∀ d m t,
      IsConstructedResult (ExtractionResult.success_result d m t)
  | error_path : ∀ msg, IsConstructedResult (ExtractionResult.error_result msg)

/-- The expected failure modes of an `extract` call, in terms of the
provider outcome for its request: provider exception (whose message, as
raised by the client library for timeouts and API errors, is a nonempty
human-readable string), empty response body, JSON decode failure, or
schema validation failure. -/
def ExpectedFailure (parse : String → Except String Json) (s : PySchema) :
    ProviderResult → Prop
  | .exc msg => msg ≠ ""
  | .resp content _ _ =>
    content = none ∨ content = some "" ∨
    (∃ c e, content = some c ∧ parse c = .error e) ∨
    (∃ c raw e, content = some c ∧ parse c = .ok raw ∧ s.validateRaw raw = .error e)

/-- The expected failure modes of an `extract_with_yaml_schema` call (no
validation step exists on this path). -/
def ExpectedYamlFailure (parse : String → Except String Json) :
    ProviderResult → Prop
  | .exc msg => msg ≠ ""
  | .resp content _ _ =>
    content = none ∨ content = some "" ∨
    (∃ c e, content = some c ∧ parse c = .error e)

/-- A loaded YAML schema whose mapping requires the key "name". -/
def yamlSchema0 : YamlSchemaPure :=
  ⟨"Person", "Extract the person.",
   .obj (.cons "type" (.str "object")
     (.cons "required" (.arr (.cons (.str "name") .nil)) .nil))⟩

/-- Modelled from the spec: the loaded schema's raw JSON-Schema contract
(the spec's "validated lazily against the raw JSON-Schema mapping"),
restricted to the `required` keyword: every string listed under the
schema's `required` key must be a key of the data mapping. -/
def allReqPresent : JsonList → JsonFields → Bool
  | .nil, _ => true
  | .cons (.str k) rest, dfs => (lookupKey dfs k).isSome && allReqPresent rest dfs
  | .cons _ rest, dfs => allReqPresent rest dfs

def requiredOk (schema data : Json) : Bool :=
  match schema, data with
  | .obj sfs, .obj dfs =>
    match lookupKey sfs "required" with
    | some (.arr reqs) => allReqPresent reqs dfs
    | _ => true
  | _, _ => true

/-- A provider returning the JSON text of an empty object. -/
def emptyObjProvider : Request → ProviderResult :=
  fun _ => .resp (some objContent) "gpt-4o-2024-08-06" (some 5)

/-- A Pydantic-style schema whose validator rejects the empty mapping. -/
def strictSchema : PySchema :=
  ⟨"Strict Schema", "Extract.", .obj .nil,
   fun j => match j with
     | .obj .nil => .error "field required: name"
     | _ => .ok j⟩

/-- A provider returning a response with no content. -/
def noContentProvider : Request → ProviderResult := fun _ => .resp none "m" none

def startsWithChars : List Char → List Char → Bool
  | [], _ => true
  | _ :: _, [] => false
  | c :: cs, d :: ds => c == d && startsWithChars cs ds

def hasSubChars (pat : List Char) : List Char → Bool
  | [] => startsWithChars pat []
  | d :: ds => startsWithChars pat (d :: ds) || hasSubChars pat ds

/-- Substring test: `pat` occurs contiguously in `s`. -/
def strContainsStr (s pat : String) : Bool := hasSubChars pat.data s.data

/-- A provider returning a body that is not valid JSON. -/
def badJsonProvider : Request → ProviderResult :=
  fun _ => .resp (some "not json") "gpt-4o-2024-08-06" (some 5)

/-!
Heap-based embedding of `_ensure_additional_properties_false` for the
aliasing behaviour of `extract_with_yaml_schema` (lines 113-115): Python
dicts are mutable objects referenced by address, `dict.copy()` is
shallow, and the normalizer mutates dicts in place.  Dicts live on a
heap; a dict value that is itself a dict appears as `PVal.ref`; lists
are sequences (never structurally mutated by this code) whose dict
elements appear as references.  The recursion carries fuel, decremented
on every call (Python would not terminate on cyclic inputs either);
every claim is conditional on the run completing.  Entry iteration uses
the snapshot of the dict taken right after its own
`additionalProperties` update, which agrees with Python's live
iteration whenever iteration completes without a concurrent-mutation
error.
-/
inductive PVal where
  | null : PVal
  | bool : Bool → PVal
  | num : Int → PVal
  | str : String → PVal
  | ref : Nat → PVal
  | list : List PVal → PVal

abbrev PDict := List (String × PVal)

abbrev Heap := List (Nat × PDict)

def dictGet : PDict → String → Option PVal
  | [], _ => none
  | (k, v) :: rest, key => if k = key then some v else dictGet rest key

def dictSet : PDict → String → PVal → PDict
  | [], key, val => [(key, val)]
  | (k, v) :: rest, key, val =>
    if k = key then (k, val) :: rest else (k, v) :: dictSet rest key val

def heapGet : Heap → Nat → Option PDict
  | [], _ => none
  | (a, d) :: rest, addr => if a = addr then some d else heapGet rest addr

def heapSet : Heap → Nat → PDict → Heap
  | [], addr, d => [(addr, d)]
  | (a, d') :: rest, addr, d =>
    if a = addr then (a, d) :: rest else (a, d') :: heapSet rest addr d

/-- Heap version of `schema_dict.get("type") == "object"`. -/
def isObjTypeP (d : PDict) : Bool :=
  match dictGet d "type" with
  | some (.str s) => s == "object"
  | _ => false

mutual
def ensureRefHeap : Nat → Heap → Nat → Option Heap
  | 0, _, _ => none
  | fuel + 1, h, a =>
    match heapGet h a with
    | none => some h
    | some d =>
      if isObjTypeP d then
        ensureEntriesHeap fuel
          (heapSet h a (dictSet d "additionalProperties" (.bool false)))
          (dictSet d "additionalProperties" (.bool false))
      else
        ensureEntriesHeap fuel (heapSet h a d) d
def ensureEntriesHeap : Nat → Heap → PDict → Option Heap
  | _, h, [] => some h
  | 0, _, _ :: _ => none
  | fuel + 1, h, (k, v) :: rest =>
    match ensureEntryHeap fuel h k v with
    | none => none
    | some h1 => ensureEntriesHeap fuel h1 rest
def ensureEntryHeap : Nat → Heap → String → PVal → Option Heap
  | 0, _, _, _ => none
  | fuel + 1, h, k, v =>
    match v with
    | .ref a => ensureRefHeap fuel h a
    | .list items => if isSpecialKey k then ensureItemsHeap fuel h items else some h
    | _ => some h
def ensureItemsHeap : Nat → Heap → List PVal → Option Heap
  | _, h, [] => some h
  | 0, _, _ :: _ => none
  | fuel + 1, h, v :: rest =>
    match ensureElemHeap fuel h v with
    | none => none
    | some h1 => ensureItemsHeap fuel h1 rest
def ensureElemHeap : Nat → Heap → PVal → Option Heap
  | 0, _, _ => none
  | fuel + 1, h, v =>
    match v with
    | .ref a => ensureRefHeap fuel h a
    | _ => some h
end

/-- The schema preparation of `extract_with_yaml_schema` (lines 113-115):
`schema_dict = yaml_schema.schema.copy()` places a shallow copy of the
dict at `schemaAddr` at the fresh address `fresh` — the copy holds the
same references as the original — and then
`_ensure_additional_properties_false(schema_dict)` runs on the copy,
reaching the caller's nested dicts through those shared references. -/
def copyAndNormalizeSchema (fuel : Nat) (h : Heap) (schemaAddr fresh : Nat) :
    Option Heap :=
  match heapGet h schemaAddr with
  | none => none
  | some d => ensureRefHeap fuel (heapSet h fresh d) fresh

/-- What a normalizer run may do to any allocated dict: every key other
than `additionalProperties` keeps its value, and `additionalProperties`
is either untouched or set to `false`. -/
def HeapPres (h h' : Heap) : Prop :=
  ∀ m d, heapGet h m = some d →
    ∃ d', heapGet h' m = some d' ∧
      (∀ k, k ≠ "additionalProperties" → dictGet d' k = dictGet d k) ∧
      (dictGet d' "additionalProperties" = dictGet d "additionalProperties" ∨
       dictGet d' "additionalProperties" = some (PVal.bool false))

/-- A caller heap whose schema dict (address 0) contains a nested
object-typed mapping (address 1) only inside a list under the
non-special key "weird". -/
def heapCX : Heap :=
  [(0, [("weird", PVal.list [PVal.ref 1])]),
   (1, [("type", PVal.str "object")])]

/-- The heap after `copy` + normalization of `heapCX`: only the fresh
shallow copy at address 2 was added; nothing else changed. -/
def heapCXres : Heap :=
  [(0, [("weird", PVal.list [PVal.ref 1])]),
   (1, [("type", PVal.str "object")]),
   (2, [("weird", PVal.list [PVal.ref 1])])]

/-- A caller heap whose schema dict (address 0) references the nested
object-typed dict at address 1 through the entry "properties". -/
def heapW : Heap :=
  [(0, [("properties", PVal.ref 1)]),
   (1, [("type", PVal.str "object")])]

theorem ensureAPF_obj (fs : JsonFields) : ensureAPF (.obj fs) = ensureObj fs := by
  simp [ensureAPF, ensureObj]

theorem ensureEntry_obj (k : String) (fs : JsonFields) :
    ensureEntry k (.obj fs) = ensureObj fs := by
  simp [ensureEntry, ensureObj]

theorem ensureItem_obj (fs : JsonFields) : ensureItem (.obj fs) = ensureObj fs := by
  simp [ensureItem, ensureObj]

theorem ensureObj_shape (fs : JsonFields) : ∃ gs, ensureObj fs = .obj gs := by
  unfold ensureObj
  split <;> exact ⟨_, rfl⟩

theorem lookupKey_setKey_self : (fs : JsonFields) → (k : String) → (v : Json) →
    lookupKey (setKey fs k v) k = some v
  | .nil, k, v => by simp [setKey, lookupKey]
  | .cons k' v' rest, k, v => by
    by_cases h : k' = k
    · simp [setKey, h, lookupKey]
    · simp [setKey, h, lookupKey, lookupKey_setKey_self rest k v]

theorem lookupKey_setKey_ne : (fs : JsonFields) → (k : String) → (v : Json) →
    (key : String) → key ≠ k → lookupKey (setKey fs k v) key = lookupKey fs key
  | .nil, k, v, key, h => by simp [setKey, lookupKey, Ne.symm h]
  | .cons k' v' rest, k, v, key, h => by
    by_cases h' : k' = k
    · subst h'
      simp [setKey, lookupKey, Ne.symm h]
    · simp only [setKey, if_neg h', lookupKey]
      by_cases h'' : k' = key
      · simp [h'']
      · simp [h'', lookupKey_setKey_ne rest k v key h]

theorem setKey_setKey_same : (fs : JsonFields) → (k : String) → (v : Json) →
    setKey (setKey fs k v) k v = setKey fs k v
  | .nil, k, v => by simp [setKey]
  | .cons k' v' rest, k, v => by
    by_cases h : k' = k
    · simp [setKey, h]
    · simp [setKey, h, setKey_setKey_same rest k v]

theorem lookupKey_ensureFields : (fs : JsonFields) → (key : String) →
    lookupKey (ensureFields fs) key = Option.map (ensureEntry key) (lookupKey fs key)
  | .nil, _ => rfl
  | .cons k v rest, key => by
    simp only [ensureFields, lookupKey]
    by_cases h : k = key
    · subst h; simp
    · simp [h, lookupKey_ensureFields rest key]

theorem isStrObject_map_ensureEntry (key : String) : (o : Option Json) →
    isStrObject (Option.map (ensureEntry key) o) = isStrObject o
  | none => rfl
  | some (.null) => rfl
  | some (.bool _) => rfl
  | some (.num _) => rfl
  | some (.str _) => rfl
  | some (.arr items) => by
    simp only [Option.map, ensureEntry]
    split <;> rfl
  | some (.obj fs) => by
    simp only [Option.map, ensureEntry]
    split <;> rfl

theorem isStrObject_lookup_ensureFields (fs : JsonFields) (key : String) :
    isStrObject (lookupKey (ensureFields fs) key) = isStrObject (lookupKey fs key) := by
  rw [lookupKey_ensureFields, isStrObject_map_ensureEntry]

theorem ensureFields_setKey_bool : (fs : JsonFields) → (k : String) → (b : Bool) →
    ensureFields (setKey fs k (.bool b)) = setKey (ensureFields fs) k (.bool b)
  | .nil, k, b => by simp [setKey, ensureFields, ensureEntry]
  | .cons k' v rest, k, b => by
    by_cases h : k' = k
    · simp [setKey, h, ensureFields, ensureEntry]
    · simp [setKey, h, ensureFields, ensureFields_setKey_bool rest k b]

/-- Renormalizing an already-normalized dict body is the identity, given
idempotence of the entry recursion on its fields. -/
theorem ensureObj_again (fs : JsonFields)
    (ih : ensureFields (ensureFields fs) = ensureFields fs) :
    ensureAPF (ensureObj fs) = ensureObj fs := by
  unfold ensureObj
  by_cases hc : isStrObject (lookupKey fs "type")
  · simp only [if_pos hc, ensureAPF_obj, ensureObj]
    rw [lookupKey_setKey_ne _ _ _ _ (by decide), isStrObject_lookup_ensureFields,
      if_pos hc, ensureFields_setKey_bool, ih, setKey_setKey_same]
  · simp only [if_neg hc, ensureAPF_obj, ensureObj]
    rw [isStrObject_lookup_ensureFields, if_neg hc, ih]

mutual
theorem ensureAPF_idem : (j : Json) → ensureAPF (ensureAPF j) = ensureAPF j
  | .null => rfl
  | .bool _ => rfl
  | .num _ => rfl
  | .str _ => rfl
  | .arr _ => rfl
  | .obj fs => by
    rw [ensureAPF_obj]
    exact ensureObj_again fs (ensureFields_idem fs)
theorem ensureFields_idem : (fs : JsonFields) → ensureFields (ensureFields fs) = ensureFields fs
  | .nil => rfl
  | .cons k v rest => by
    simp only [ensureFields, JsonFields.cons.injEq, true_and]
    exact ⟨ensureEntry_idem k v, ensureFields_idem rest⟩
theorem ensureEntry_idem : (k : String) → (v : Json) →
    ensureEntry k (ensureEntry k v) = ensureEntry k v
  | _, .null => rfl
  | _, .bool _ => rfl
  | _, .num _ => rfl
  | _, .str _ => rfl
  | k, .arr items => by
    by_cases h : isSpecialKey k
    · simp only [ensureEntry, if_pos h]
      rw [ensureItems_idem items]
    · simp only [ensureEntry, if_neg h]
  | k, .obj fs => by
    rw [ensureEntry_obj]
    obtain ⟨gs, hg⟩ := ensureObj_shape fs
    rw [hg, ensureEntry_obj, ← ensureAPF_obj, ← hg,
      ensureObj_again fs (ensureFields_idem fs)]
theorem ensureItems_idem : (items : JsonList) → ensureItems (ensureItems items) = ensureItems items
  | .nil => rfl
  | .cons v rest => by
    simp only [ensureItems, JsonList.cons.injEq]
    exact ⟨ensureItem_idem v, ensureItems_idem rest⟩
theorem ensureItem_idem : (v : Json) → ensureItem (ensureItem v) = ensureItem v
  | .null => rfl
  | .bool _ => rfl
  | .num _ => rfl
  | .str _ => rfl
  | .arr _ => rfl
  | .obj fs => by
    rw [ensureItem_obj]
    obtain ⟨gs, hg⟩ := ensureObj_shape fs
    rw [hg, ensureItem_obj, ← ensureAPF_obj, ← hg,
      ensureObj_again fs (ensureFields_idem fs)]
end

theorem fieldsKeys_ensureFields : (fs : JsonFields) →
    fieldsKeys (ensureFields fs) = fieldsKeys fs
  | .nil => rfl
  | .cons k v rest => by
    simp [ensureFields, fieldsKeys, fieldsKeys_ensureFields rest]

theorem closedWalkFields_setKey_bool : (hs : JsonFields) → (k : String) → (b : Bool) →
    closedWalkFields hs = true → closedWalkFields (setKey hs k (.bool b)) = true
  | .nil, k, b, _ => by simp [setKey, closedWalkFields, closedWalkEntry]
  | .cons k' v rest, k, b, h => by
    simp only [closedWalkFields, Bool.and_eq_true] at h
    by_cases h' : k' = k
    · simp [setKey, h', closedWalkFields, closedWalkEntry, h.2]
    · simp [setKey, h', closedWalkFields, closedWalkEntry, h.1,
        closedWalkFields_setKey_bool rest k b h.2]

/-- The fields produced by normalizing a dict body satisfy the walk
invariant, given it for the recursively processed fields. -/
theorem ensureObj_fields_closed (fs : JsonFields)
    (ih : closedWalkFields (ensureFields fs) = true) :
    ∀ gs, ensureObj fs = .obj gs → objClosed gs = true ∧ closedWalkFields gs = true := by
  intro gs hg
  unfold ensureObj at hg
  by_cases hc : isStrObject (lookupKey fs "type")
  · rw [if_pos hc, Json.obj.injEq] at hg
    subst hg
    constructor
    · unfold objClosed
      rw [lookupKey_setKey_ne _ _ _ _ (by decide), isStrObject_lookup_ensureFields,
        if_pos hc, lookupKey_setKey_self]
    · exact closedWalkFields_setKey_bool _ _ _ ih
  · rw [if_neg hc, Json.obj.injEq] at hg
    subst hg
    constructor
    · unfold objClosed
      rw [isStrObject_lookup_ensureFields, if_neg hc]
    · exact ih

mutual
theorem closedWalk_ensureAPF : (j : Json) → closedWalk (ensureAPF j) = true
  | .null => rfl
  | .bool _ => rfl
  | .num _ => rfl
  | .str _ => rfl
  | .arr _ => rfl
  | .obj fs => by
    rw [ensureAPF_obj]
    obtain ⟨gs, hg⟩ := ensureObj_shape fs
    obtain ⟨h1, h2⟩ := ensureObj_fields_closed fs (closedWalkFields_ensureFields fs) gs hg
    rw [hg]
    simp [closedWalk, h1, h2]
theorem closedWalkFields_ensureFields : (fs : JsonFields) →
    closedWalkFields (ensureFields fs) = true
  | .nil => rfl
  | .cons k v rest => by
    simp only [ensureFields, closedWalkFields, Bool.and_eq_true]
    exact ⟨closedWalkEntry_ensureEntry k v, closedWalkFields_ensureFields rest⟩
theorem closedWalkEntry_ensureEntry : (k : String) → (v : Json) →
    closedWalkEntry k (ensureEntry k v) = true
  | _, .null => rfl
  | _, .bool _ => rfl
  | _, .num _ => rfl
  | _, .str _ => rfl
  | k, .arr items => by
    by_cases h : isSpecialKey k
    · simp only [ensureEntry, if_pos h, closedWalkEntry]
      exact closedWalkItems_ensureItems items
    · simp only [ensureEntry, if_neg h, closedWalkEntry]
  | k, .obj fs => by
    rw [ensureEntry_obj]
    obtain ⟨gs, hg⟩ := ensureObj_shape fs
    obtain ⟨h1, h2⟩ := ensureObj_fields_closed fs (closedWalkFields_ensureFields fs) gs hg
    rw [hg]
    simp [closedWalkEntry, h1, h2]
theorem closedWalkItems_ensureItems : (items : JsonList) →
    closedWalkItems (ensureItems items) = true
  | .nil => rfl
  | .cons v rest => by
    simp only [ensureItems, closedWalkItems, Bool.and_eq_true]
    exact ⟨closedWalkItem_ensureItem v, closedWalkItems_ensureItems rest⟩
theorem closedWalkItem_ensureItem : (v : Json) → closedWalkItem (ensureItem v) = true
  | .null => rfl
  | .bool _ => rfl
  | .num _ => rfl
  | .str _ => rfl
  | .arr _ => rfl
  | .obj fs => by
    rw [ensureItem_obj]
    obtain ⟨gs, hg⟩ := ensureObj_shape fs
    obtain ⟨h1, h2⟩ := ensureObj_fields_closed fs (closedWalkFields_ensureFields fs) gs hg
    rw [hg]
    simp [closedWalkItem, h1, h2]
end

/-- C1 counterexample: the claim is false as stated.  The normalizer does
not recurse into list-valued entries under keys other than
`properties`/`items`/`anyOf`/`allOf`/`oneOf`, so after normalizing
`deepListSchema` the nested `type: "object"` sub-mapping (which sits at
nesting depth 2) still has no `additionalProperties` entry: the
"every sub-mapping at any nesting depth" invariant fails. -/
theorem closed_at_any_depth_counterexample :
    closedAll (ensureAPF deepListSchema) = false := rfl

/-- C1 (amended): after normalization, every sub-mapping that the
recursion reaches (dict-valued entries under any key, and dict elements
of list-valued entries under `properties`/`items`/`anyOf`/`allOf`/`oneOf`)
with `type == "object"` has `additionalProperties == false`; and a
mapping whose `type` is not `"object"` gains no new entries (its key list
is unchanged). -/
theorem normalize_closed_object_invariant :
    (∀ j, closedWalk (ensureAPF j) = true) ∧
    (∀ fs, isStrObject (lookupKey fs "type") = false →
      objKeys (ensureAPF (.obj fs)) = fieldsKeys fs) := by
  constructor
  · exact closedWalk_ensureAPF
  · intro fs h
    rw [ensureAPF_obj]
    unfold ensureObj
    simp [h, objKeys, fieldsKeys_ensureFields]

theorem normalize_closed_object_invariant_witness :
    closedWalk (ensureAPF deepListSchema) = true ∧
    isStrObject (lookupKey smallNonObjFields "type") = false ∧
    objKeys (ensureAPF (.obj smallNonObjFields)) = fieldsKeys smallNonObjFields :=
  ⟨normalize_closed_object_invariant.1 deepListSchema, rfl,
   normalize_closed_object_invariant.2 smallNonObjFields rfl⟩

/-- C2: the schema normalizer is idempotent: normalizing twice yields the
same mapping as normalizing once. -/
theorem normalize_idempotent : ∀ j, ensureAPF (ensureAPF j) = ensureAPF j :=
  ensureAPF_idem

theorem extract_calls_length (cfg : Config) (text : String) (s : PySchema)
    (system_prompt : Option String) (parse : String → Except String Json)
    (provider : Request → ProviderResult) :
    (extract cfg text s system_prompt parse provider).2.length = 1 := by
  unfold extract
  repeat first
  | rfl
  | split

theorem yaml_calls_length (cfg : Config) (text : String) (ys : YamlSchemaPure)
    (parse : String → Except String Json) (provider : Request → ProviderResult) :
    (extract_with_yaml_schema cfg text ys parse provider).2.length = 1 := by
  unfold extract_with_yaml_schema
  repeat first
  | rfl
  | split

/-- C3 counterexample: with the default configuration
(`max_retries = 3`) and a provider dependency that times out on every
attempt, `extract` issues exactly one provider call — not
`max_retries` — before returning the final error result.
`Config.max_retries` is never consulted by the orchestrator. -/
theorem retry_budget_counterexample :
    cfg0.max_retries = 3 ∧
    (extract cfg0 "input" schema0 none parseFail timeoutProvider).2.length = 1 ∧
    (extract cfg0 "input" schema0 none parseFail timeoutProvider).2.length ≠
      cfg0.max_retries ∧
    (extract cfg0 "input" schema0 none parseFail timeoutProvider).1 =
      ExtractionResult.error_result "Request timed out." :=
  ⟨rfl, rfl, by decide, rfl⟩

/-- C3 (amended): for every configuration (whatever `max_retries` is) and
every provider behaviour, `extract` issues exactly one provider-call
attempt; any provider exception — timeout, 5xx, or otherwise, with no
classification into transient/permanent — immediately yields the final
error result carrying the exception message.  Nothing is ever retried. -/
theorem extract_single_attempt :
    ∀ cfg text s sp parse provider msg,
    (extract cfg text s sp parse provider).2.length = 1 ∧
    (provider (requestOf cfg s text sp) = ProviderResult.exc msg →
      extract cfg text s sp parse provider =
        (ExtractionResult.error_result msg, [requestOf cfg s text sp])) := by
  intro cfg text s sp parse provider msg
  refine ⟨extract_calls_length cfg text s sp parse provider, ?_⟩
  intro hp
  unfold extract
  rw [hp]

theorem extract_single_attempt_witness :
    timeoutProvider (requestOf cfg0 schema0 "input" none) =
      ProviderResult.exc "Request timed out." ∧
    (extract cfg0 "input" schema0 none parseFail timeoutProvider).2.length = 1 ∧
    extract cfg0 "input" schema0 none parseFail timeoutProvider =
      (ExtractionResult.error_result "Request timed out.",
       [requestOf cfg0 schema0 "input" none]) :=
  ⟨rfl,
   (extract_single_attempt cfg0 "input" schema0 none parseFail timeoutProvider
     "Request timed out.").1,
   (extract_single_attempt cfg0 "input" schema0 none parseFail timeoutProvider
     "Request timed out.").2 rfl⟩

/-- C4 counterexample: there is no cache.  On two calls with identical
(schema, prompt, input text, model) the second call still performs one
provider call (not zero), and its result is not byte-identical to the
first: the token counts differ. -/
theorem cache_counterexample :
    twiceRun.2.2.length = 1 ∧
    twiceRun.1.1.tokens_used = some 10 ∧
    twiceRun.2.1.tokens_used = some 20 ∧
    twiceRun.1.1.tokens_used ≠ twiceRun.2.1.tokens_used :=
  ⟨rfl, rfl, rfl, by decide⟩

/-- C4 (amended): the orchestrator maintains no cache (and no rate
limiter): each of two identical calls performs exactly one provider
call, and the second result coincides with the first only when the
provider happens to behave identically on both calls. -/
theorem extract_no_cache :
    ∀ cfg text s sp parse provider,
    (extractTwice cfg text s sp parse provider).1.2.length = 1 ∧
    (extractTwice cfg text s sp parse provider).2.2.length = 1 ∧
    (provider 0 = provider 1 →
      (extractTwice cfg text s sp parse provider).1 =
        (extractTwice cfg text s sp parse provider).2) := by
  intro cfg text s sp parse provider
  refine ⟨extract_calls_length cfg text s sp parse (provider 0),
    extract_calls_length cfg text s sp parse (provider 1), ?_⟩
  intro h
  unfold extractTwice
  rw [h]

theorem extract_no_cache_witness :
    steadyProvider 0 = steadyProvider 1 ∧
    (extractTwice cfg0 "input" schema0 none parseObj steadyProvider).1.2.length = 1 ∧
    (extractTwice cfg0 "input" schema0 none parseObj steadyProvider).2.2.length = 1 ∧
    (extractTwice cfg0 "input" schema0 none parseObj steadyProvider).1 =
      (extractTwice cfg0 "input" schema0 none parseObj steadyProvider).2 :=
  ⟨rfl,
   (extract_no_cache cfg0 "input" schema0 none parseObj steadyProvider).1,
   (extract_no_cache cfg0 "input" schema0 none parseObj steadyProvider).2.1,
   (extract_no_cache cfg0 "input" schema0 none parseObj steadyProvider).2.2 rfl⟩

/-- C5: every result built by the success-result or error-result
constructor satisfies exactly one of: success with non-null data and
null error, or failure with non-null error and null data. -/
theorem result_exclusivity :
    ∀ r, IsConstructedResult r →
    ((r.success = true ∧ r.data ≠ none ∧ r.error = none) ∨
     (r.success = false ∧ r.error ≠ none ∧ r.data = none)) ∧
    ¬((r.success = true ∧ r.data ≠ none ∧ r.error = none) ∧
      (r.success = false ∧ r.error ≠ none ∧ r.data = none)) := by
  intro r h
  cases h with
  | success_path d m t =>
    refine ⟨Or.inl ⟨rfl, by simp [ExtractionResult.success_result], rfl⟩, ?_⟩
    rintro ⟨⟨h1, -, -⟩, ⟨h2, -, -⟩⟩
    rw [h1] at h2
    cases h2
  | error_path msg =>
    refine ⟨Or.inr ⟨rfl, by simp [ExtractionResult.error_result], rfl⟩, ?_⟩
    rintro ⟨⟨h1, -, -⟩, ⟨h2, -, -⟩⟩
    rw [h1] at h2
    cases h2

theorem result_exclusivity_witness :
    IsConstructedResult (ExtractionResult.error_result "boom") ∧
    ((((ExtractionResult.error_result "boom").success = true ∧
       (ExtractionResult.error_result "boom").data ≠ none ∧
       (ExtractionResult.error_result "boom").error = none) ∨
      ((ExtractionResult.error_result "boom").success = false ∧
       (ExtractionResult.error_result "boom").error ≠ none ∧
       (ExtractionResult.error_result "boom").data = none)) ∧
     ¬(((ExtractionResult.error_result "boom").success = true ∧
        (ExtractionResult.error_result "boom").data ≠ none ∧
        (ExtractionResult.error_result "boom").error = none) ∧
       ((ExtractionResult.error_result "boom").success = false ∧
        (ExtractionResult.error_result "boom").error ≠ none ∧
        (ExtractionResult.error_result "boom").data = none))) :=
  ⟨IsConstructedResult.error_path "boom",
   result_exclusivity _ (IsConstructedResult.error_path "boom")⟩

theorem append_ne_empty (a b : String) (h : a.length ≠ 0) : a ++ b ≠ "" := by
  intro hab
  have h2 := congrArg String.length hab
  rw [String.length_append] at h2
  simp [String.length_empty] at h2
  omega

/-- C6: for every expected failure mode — empty response, decode
failure, validation failure, provider error — `extract` and
`extract_with_yaml_schema` return an ExtractionResult (they are total
functions: the outer try/except converts every provider exception into a
result rather than letting it propagate) with `success = false` and a
nonempty error string. -/
theorem extract_never_throws :
    ∀ cfg text s sp parse provider ys provider2,
    (ExpectedFailure parse s (provider (requestOf cfg s text sp)) →
      (extract cfg text s sp parse provider).1.success = false ∧
      ∃ e, (extract cfg text s sp parse provider).1.error = some e ∧ e ≠ "") ∧
    (ExpectedYamlFailure parse (provider2 (yamlRequestOf cfg ys text)) →
      (extract_with_yaml_schema cfg text ys parse provider2).1.success = false ∧
      ∃ e, (extract_with_yaml_schema cfg text ys parse provider2).1.error = some e ∧
        e ≠ "") := by
  intro cfg text s sp parse provider ys provider2
  constructor
  · intro hf
    unfold extract
    split
    next msg heq =>
      rw [heq] at hf
      exact ⟨rfl, msg, rfl, hf⟩
    next content model usage heq =>
      rw [heq] at hf
      simp only [ExpectedFailure] at hf
      split
      next => exact ⟨rfl, _, rfl, by decide⟩
      next c hcontent =>
        split
        next hc => exact ⟨rfl, _, rfl, by decide⟩
        next hc =>
          split
          next e heq3 => exact ⟨rfl, _, rfl, append_ne_empty _ _ (by decide)⟩
          next raw heq3 =>
            split
            next e2 heq4 => exact ⟨rfl, _, rfl, append_ne_empty _ _ (by decide)⟩
            next dumped heq4 =>
              exfalso
              rcases hf with h | h | ⟨c', e', hce, hpe⟩ | ⟨c', raw', e', hce, hpr, hv⟩
              · exact Option.noConfusion h
              · injection h with h'
                exact hc h'
              · injection hce with hce'
                subst hce'
                rw [heq3] at hpe
                exact Except.noConfusion hpe
              · injection hce with hce'
                subst hce'
                rw [heq3] at hpr
                injection hpr with hpr'
                subst hpr'
                rw [heq4] at hv
                exact Except.noConfusion hv
  · intro hf
    unfold extract_with_yaml_schema
    split
    next msg heq =>
      rw [heq] at hf
      exact ⟨rfl, msg, rfl, hf⟩
    next content model usage heq =>
      rw [heq] at hf
      simp only [ExpectedYamlFailure] at hf
      split
      next => exact ⟨rfl, _, rfl, by decide⟩
      next c hcontent =>
        split
        next hc => exact ⟨rfl, _, rfl, by decide⟩
        next hc =>
          split
          next e heq3 => exact ⟨rfl, _, rfl, append_ne_empty _ _ (by decide)⟩
          next data heq3 =>
            exfalso
            rcases hf with h | h | ⟨c', e', hce, hpe⟩
            · exact Option.noConfusion h
            · injection h with h'
              exact hc h'
            · injection hce with hce'
              subst hce'
              rw [heq3] at hpe
              exact Except.noConfusion hpe

theorem extract_never_throws_witness :
    ExpectedFailure parseFail schema0
      (timeoutProvider (requestOf cfg0 schema0 "input" none)) ∧
    ExpectedYamlFailure parseFail
      (timeoutProvider (yamlRequestOf cfg0 yamlSchema0 "input")) ∧
    ((extract cfg0 "input" schema0 none parseFail timeoutProvider).1.success = false ∧
     ∃ e, (extract cfg0 "input" schema0 none parseFail timeoutProvider).1.error =
       some e ∧ e ≠ "") ∧
    ((extract_with_yaml_schema cfg0 "input" yamlSchema0 parseFail
        timeoutProvider).1.success = false ∧
     ∃ e, (extract_with_yaml_schema cfg0 "input" yamlSchema0 parseFail
        timeoutProvider).1.error = some e ∧ e ≠ "") :=
  ⟨by simp only [ExpectedFailure, timeoutProvider]; decide,
   by simp only [ExpectedYamlFailure, timeoutProvider]; decide,
   (extract_never_throws cfg0 "input" schema0 none parseFail timeoutProvider
     yamlSchema0 timeoutProvider).1
     (by simp only [ExpectedFailure, timeoutProvider]; decide),
   (extract_never_throws cfg0 "input" schema0 none parseFail timeoutProvider
     yamlSchema0 timeoutProvider).2
     (by simp only [ExpectedYamlFailure, timeoutProvider]; decide)⟩

/-- C7 counterexample: in the YAML-schema path the parsed value is not
validated against the schema's contract: with a schema requiring the key
"name" and a response body parsing to the empty mapping (which violates
that contract), the call returns a success result carrying the raw,
unvalidated data. -/
theorem yaml_no_validation_counterexample :
    requiredOk yamlSchema0.schema (.obj .nil) = false ∧
    (extract_with_yaml_schema cfg0 "input" yamlSchema0 parseObj
      emptyObjProvider).1.success = true ∧
    (extract_with_yaml_schema cfg0 "input" yamlSchema0 parseObj
      emptyObjProvider).1.data = some (.obj .nil) :=
  ⟨rfl, rfl, rfl⟩

/-- C7 (amended): in the Pydantic path the parsed value is validated
against the original schema's typed contract (the schema object's own
validator — normalization only affects the derived request schema); a
validation failure yields an error result carrying the validation
message with no further provider call, and success yields the
serialized validated data with the provider-reported model and usage.
In the YAML path the parsed value is returned as-is, unvalidated. -/
theorem validation_behavior :
    ∀ cfg text s sp parse provider c model usage raw ys provider2 c2 model2 usage2
      raw2,
    provider (requestOf cfg s text sp) = ProviderResult.resp (some c) model usage →
    c ≠ "" → parse c = Except.ok raw →
    provider2 (yamlRequestOf cfg ys text) =
      ProviderResult.resp (some c2) model2 usage2 →
    c2 ≠ "" → parse c2 = Except.ok raw2 →
    ((∀ e, s.validateRaw raw = Except.error e →
       extract cfg text s sp parse provider =
         (ExtractionResult.error_result ("Invalid response format: " ++ e),
          [requestOf cfg s text sp])) ∧
     (∀ d, s.validateRaw raw = Except.ok d →
       extract cfg text s sp parse provider =
         (ExtractionResult.success_result d model usage,
          [requestOf cfg s text sp])) ∧
     extract_with_yaml_schema cfg text ys parse provider2 =
       (ExtractionResult.success_result raw2 model2 usage2,
        [yamlRequestOf cfg ys text])) := by
  intro cfg text s sp parse provider c model usage raw ys provider2 c2 model2 usage2
    raw2 hp hc hparse hp2 hc2 hparse2
  refine ⟨?_, ?_, ?_⟩
  · intro e hv
    simp [extract, hp, hc, hparse, hv]
  · intro d hv
    simp [extract, hp, hc, hparse, hv]
  · simp [extract_with_yaml_schema, hp2, hc2, hparse2]

theorem validation_behavior_witness :
    emptyObjProvider (requestOf cfg0 strictSchema "input" none) =
      ProviderResult.resp (some objContent) "gpt-4o-2024-08-06" (some 5) ∧
    objContent ≠ "" ∧
    parseObj objContent = Except.ok (.obj .nil) ∧
    strictSchema.validateRaw (.obj .nil) = Except.error "field required: name" ∧
    extract cfg0 "input" strictSchema none parseObj emptyObjProvider =
      (ExtractionResult.error_result
        ("Invalid response format: " ++ "field required: name"),
       [requestOf cfg0 strictSchema "input" none]) ∧
    extract_with_yaml_schema cfg0 "input" yamlSchema0 parseObj emptyObjProvider =
      (ExtractionResult.success_result (.obj .nil) "gpt-4o-2024-08-06" (some 5),
       [yamlRequestOf cfg0 yamlSchema0 "input"]) :=
  ⟨rfl, by decide, rfl, rfl,
   (validation_behavior cfg0 "input" strictSchema none parseObj emptyObjProvider
     objContent "gpt-4o-2024-08-06" (some 5) (.obj .nil) yamlSchema0
     emptyObjProvider objContent "gpt-4o-2024-08-06" (some 5) (.obj .nil)
     rfl (by decide) rfl rfl (by decide) rfl).1 "field required: name" rfl,
   (validation_behavior cfg0 "input" strictSchema none parseObj emptyObjProvider
     objContent "gpt-4o-2024-08-06" (some 5) (.obj .nil) yamlSchema0
     emptyObjProvider objContent "gpt-4o-2024-08-06" (some 5) (.obj .nil)
     rfl (by decide) rfl rfl (by decide) rfl).2.2⟩

/-- C8: an empty response body (`content` is None or the empty string)
yields exactly `error_result("Empty response from LLM")` on both paths,
with exactly one provider call issued and no retry. -/
theorem empty_response_contract :
    ∀ cfg text s sp parse provider ys provider2 c1 model usage c2 model2 usage2,
    provider (requestOf cfg s text sp) = ProviderResult.resp c1 model usage →
    (c1 = none ∨ c1 = some "") →
    provider2 (yamlRequestOf cfg ys text) = ProviderResult.resp c2 model2 usage2 →
    (c2 = none ∨ c2 = some "") →
    extract cfg text s sp parse provider =
      (ExtractionResult.error_result "Empty response from LLM",
       [requestOf cfg s text sp]) ∧
    extract_with_yaml_schema cfg text ys parse provider2 =
      (ExtractionResult.error_result "Empty response from LLM",
       [yamlRequestOf cfg ys text]) := by
  intro cfg text s sp parse provider ys provider2 c1 model usage c2 model2 usage2
    hp hcc hp2 hcc2
  constructor
  · rcases hcc with h | h <;> subst h <;> simp [extract, hp]
  · rcases hcc2 with h | h <;> subst h <;> simp [extract_with_yaml_schema, hp2]

theorem empty_response_contract_witness :
    noContentProvider (requestOf cfg0 schema0 "input" none) =
      ProviderResult.resp none "m" none ∧
    noContentProvider (yamlRequestOf cfg0 yamlSchema0 "input") =
      ProviderResult.resp none "m" none ∧
    extract cfg0 "input" schema0 none parseFail noContentProvider =
      (ExtractionResult.error_result "Empty response from LLM",
       [requestOf cfg0 schema0 "input" none]) ∧
    extract_with_yaml_schema cfg0 "input" yamlSchema0 parseFail noContentProvider =
      (ExtractionResult.error_result "Empty response from LLM",
       [yamlRequestOf cfg0 yamlSchema0 "input"]) :=
  ⟨rfl, rfl,
   (empty_response_contract cfg0 "input" schema0 none parseFail noContentProvider
     yamlSchema0 noContentProvider none "m" none none "m" none
     rfl (Or.inl rfl) rfl (Or.inl rfl)).1,
   (empty_response_contract cfg0 "input" schema0 none parseFail noContentProvider
     yamlSchema0 noContentProvider none "m" none none "m" none
     rfl (Or.inl rfl) rfl (Or.inl rfl)).2⟩

theorem startsWithChars_append : (p q : List Char) →
    startsWithChars p (p ++ q) = true
  | [], _ => rfl
  | c :: cs, q => by simp [startsWithChars, startsWithChars_append cs q]

theorem hasSub_of_startsWith : (p l : List Char) →
    startsWithChars p l = true → hasSubChars p l = true
  | p, [], h => by simpa [hasSubChars] using h
  | p, d :: ds, h => by simp [hasSubChars, h]

/-- C9 counterexample: on the Pydantic path (`extract`), a malformed JSON
body produces the error string "Invalid response format: ...", which
does not contain "Invalid JSON response" (only the YAML path uses that
wording); nor is any retry budget involved. -/
theorem invalid_json_message_counterexample :
    (extract cfg0 "input" schema0 none parseFail badJsonProvider).1.success =
      false ∧
    (extract cfg0 "input" schema0 none parseFail badJsonProvider).1.error =
      some "Invalid response format: Expecting value" ∧
    strContainsStr "Invalid response format: Expecting value"
      "Invalid JSON response" = false :=
  ⟨rfl, rfl, by decide⟩

/-- C9 (amended): when the response body is malformed JSON the single
attempt (there is no retry budget) yields, on the YAML path, an error
containing "Invalid JSON response" (namely "Invalid JSON response: "
followed by the decoder message), and on the Pydantic path an error
reading "Invalid response format: " followed by the decoder message. -/
theorem decode_error_messages :
    ∀ cfg text s sp parse provider c model usage e ys provider2 c2 model2 usage2
      e2,
    provider (requestOf cfg s text sp) = ProviderResult.resp (some c) model usage →
    c ≠ "" → parse c = Except.error e →
    provider2 (yamlRequestOf cfg ys text) =
      ProviderResult.resp (some c2) model2 usage2 →
    c2 ≠ "" → parse c2 = Except.error e2 →
    extract cfg text s sp parse provider =
      (ExtractionResult.error_result ("Invalid response format: " ++ e),
       [requestOf cfg s text sp]) ∧
    extract_with_yaml_schema cfg text ys parse provider2 =
      (ExtractionResult.error_result ("Invalid JSON response: " ++ e2),
       [yamlRequestOf cfg ys text]) ∧
    strContainsStr ("Invalid JSON response: " ++ e2) "Invalid JSON response" =
      true := by
  intro cfg text s sp parse provider c model usage e ys provider2 c2 model2 usage2
    e2 hp hc hparse hp2 hc2 hparse2
  refine ⟨?_, ?_, ?_⟩
  · simp [extract, hp, hc, hparse]
  · simp [extract_with_yaml_schema, hp2, hc2, hparse2]
  · unfold strContainsStr
    rw [String.data_append]
    rw [show ("Invalid JSON response: ").data =
      "Invalid JSON response".data ++ (": ").data from rfl]
    rw [List.append_assoc]
    exact hasSub_of_startsWith _ _ (startsWithChars_append _ _)

theorem decode_error_messages_witness :
    badJsonProvider (requestOf cfg0 schema0 "input" none) =
      ProviderResult.resp (some "not json") "gpt-4o-2024-08-06" (some 5) ∧
    ("not json" : String) ≠ "" ∧
    parseFail "not json" = Except.error "Expecting value" ∧
    badJsonProvider (yamlRequestOf cfg0 yamlSchema0 "input") =
      ProviderResult.resp (some "not json") "gpt-4o-2024-08-06" (some 5) ∧
    (extract cfg0 "input" schema0 none parseFail badJsonProvider =
      (ExtractionResult.error_result ("Invalid response format: " ++ "Expecting value"),
       [requestOf cfg0 schema0 "input" none]) ∧
     extract_with_yaml_schema cfg0 "input" yamlSchema0 parseFail badJsonProvider =
      (ExtractionResult.error_result ("Invalid JSON response: " ++ "Expecting value"),
       [yamlRequestOf cfg0 yamlSchema0 "input"]) ∧
     strContainsStr ("Invalid JSON response: " ++ "Expecting value")
       "Invalid JSON response" = true) :=
  ⟨rfl, by decide, rfl, rfl,
   decode_error_messages cfg0 "input" schema0 none parseFail badJsonProvider
     "not json" "gpt-4o-2024-08-06" (some 5) "Expecting value" yamlSchema0
     badJsonProvider "not json" "gpt-4o-2024-08-06" (some 5) "Expecting value"
     rfl (by decide) rfl rfl (by decide) rfl⟩

theorem heapPres_refl (h : Heap) : HeapPres h h := by
  intro m d hm
  exact ⟨d, hm, fun k _ => rfl, Or.inl rfl⟩

theorem heapPres_trans (h1 h2 h3 : Heap) (p1 : HeapPres h1 h2)
    (p2 : HeapPres h2 h3) : HeapPres h1 h3 := by
  intro m d hm
  obtain ⟨d2, hm2, hk2, ha2⟩ := p1 m d hm
  obtain ⟨d3, hm3, hk3, ha3⟩ := p2 m d2 hm2
  refine ⟨d3, hm3, fun k hk => (hk3 k hk).trans (hk2 k hk), ?_⟩
  rcases ha3 with h3eq | h3f
  · rcases ha2 with h2eq | h2f
    · exact Or.inl (h3eq.trans h2eq)
    · exact Or.inr (h3eq.trans h2f)
  · exact Or.inr h3f

theorem dictGet_dictSet_self : (d : PDict) → (k : String) → (v : PVal) →
    dictGet (dictSet d k v) k = some v
  | [], k, v => by simp [dictSet, dictGet]
  | (k', v') :: rest, k, v => by
    by_cases h : k' = k
    · simp [dictSet, h, dictGet]
    · simp [dictSet, h, dictGet, dictGet_dictSet_self rest k v]

theorem dictGet_dictSet_ne : (d : PDict) → (k : String) → (v : PVal) →
    (key : String) → key ≠ k → dictGet (dictSet d k v) key = dictGet d key
  | [], k, v, key, h => by simp [dictSet, dictGet, Ne.symm h]
  | (k', v') :: rest, k, v, key, h => by
    by_cases h' : k' = k
    · subst h'
      simp [dictSet, dictGet, Ne.symm h]
    · simp only [dictSet, if_neg h', dictGet]
      by_cases h'' : k' = key
      · simp [h'']
      · simp [h'', dictGet_dictSet_ne rest k v key h]

theorem heapGet_heapSet_self : (h : Heap) → (a : Nat) → (d : PDict) →
    heapGet (heapSet h a d) a = some d
  | [], a, d => by simp [heapSet, heapGet]
  | (a', d') :: rest, a, d => by
    by_cases h' : a' = a
    · simp [heapSet, h', heapGet]
    · simp [heapSet, h', heapGet, heapGet_heapSet_self rest a d]

theorem heapGet_heapSet_ne : (h : Heap) → (a : Nat) → (d : PDict) →
    (m : Nat) → m ≠ a → heapGet (heapSet h a d) m = heapGet h m
  | [], a, d, m, h' => by simp [heapSet, heapGet, Ne.symm h']
  | (a', d') :: rest, a, d, m, h' => by
    by_cases h'' : a' = a
    · subst h''
      simp [heapSet, heapGet, Ne.symm h']
    · simp only [heapSet, if_neg h'', heapGet]
      by_cases h3 : a' = m
      · simp [h3]
      · simp [h3, heapGet_heapSet_ne rest a d m h']

theorem mem_dictSet_ne : (d : PDict) → (k : String) → (v : PVal) →
    (key : String) → (val : PVal) → (k, v) ∈ d → k ≠ key →
    (k, v) ∈ dictSet d key val
  | [], k, v, key, val, hmem, hne => absurd hmem (List.not_mem_nil _)
  | (k', v') :: rest, k, v, key, val, hmem, hne => by
    by_cases h' : k' = key
    · simp only [dictSet, if_pos h']
      rcases List.mem_cons.mp hmem with hhead | htail
      · exfalso
        apply hne
        injection hhead with h1 h2
        rw [h1, h']
      · exact List.mem_cons_of_mem _ htail
    · simp only [dictSet, if_neg h']
      rcases List.mem_cons.mp hmem with hhead | htail
      · rw [hhead]; exact List.mem_cons_self _ _
      · exact List.mem_cons_of_mem _ (mem_dictSet_ne rest k v key val htail hne)

/-- The dict written by the normalizer's in-place update relates to the
old one as `HeapPres` requires. -/
theorem heapPres_heapSet_dictSet_apf (h : Heap) (a : Nat) (d : PDict)
    (hga : heapGet h a = some d) :
    HeapPres h (heapSet h a (dictSet d "additionalProperties" (PVal.bool false))) := by
  intro m dm hm
  by_cases hma : m = a
  · subst hma
    rw [hga] at hm
    injection hm with hm'
    subst hm'
    refine ⟨dictSet d "additionalProperties" (PVal.bool false),
      heapGet_heapSet_self h m _, ?_, Or.inr (dictGet_dictSet_self d _ _)⟩
    intro k hk
    exact dictGet_dictSet_ne d _ _ k hk
  · exact ⟨dm, by rw [heapGet_heapSet_ne _ _ _ _ hma]; exact hm,
      fun k _ => rfl, Or.inl rfl⟩

theorem heapPres_heapSet_same (h : Heap) (a : Nat) (d : PDict)
    (hga : heapGet h a = some d) : HeapPres h (heapSet h a d) := by
  intro m dm hm
  by_cases hma : m = a
  · subst hma
    rw [hga] at hm
    injection hm with hm'
    subst hm'
    exact ⟨d, heapGet_heapSet_self h m d, fun k _ => rfl, Or.inl rfl⟩
  · exact ⟨dm, by rw [heapGet_heapSet_ne _ _ _ _ hma]; exact hm,
      fun k _ => rfl, Or.inl rfl⟩

/-- Every run of the heap normalizer only ever sets
`additionalProperties` to `false` on existing dicts; all other entries
of every allocated dict are untouched. -/
theorem ensurePres : ∀ fuel,
    (∀ h a h', ensureRefHeap fuel h a = some h' → HeapPres h h') ∧
    (∀ h es h', ensureEntriesHeap fuel h es = some h' → HeapPres h h') ∧
    (∀ h k v h', ensureEntryHeap fuel h k v = some h' → HeapPres h h') ∧
    (∀ h vs h', ensureItemsHeap fuel h vs = some h' → HeapPres h h') ∧
    (∀ h v h', ensureElemHeap fuel h v = some h' → HeapPres h h') := by
  intro fuel
  induction fuel with
  | zero =>
    refine ⟨?_, ?_, ?_, ?_, ?_⟩
    · intro h a h' he; simp [ensureRefHeap] at he
    · intro h es h' he
      cases es with
      | nil =>
        simp only [ensureEntriesHeap, Option.some.injEq] at he
        subst he; exact heapPres_refl h
      | cons e rest => simp [ensureEntriesHeap] at he
    · intro h k v h' he; simp [ensureEntryHeap] at he
    · intro h vs h' he
      cases vs with
      | nil =>
        simp only [ensureItemsHeap, Option.some.injEq] at he
        subst he; exact heapPres_refl h
      | cons v rest => simp [ensureItemsHeap] at he
    · intro h v h' he; simp [ensureElemHeap] at he
  | succ fuel ih =>
    obtain ⟨ihref, ihentries, ihentry, ihitems, ihelem⟩ := ih
    refine ⟨?_, ?_, ?_, ?_, ?_⟩
    · intro h a h' he
      simp only [ensureRefHeap] at he
      cases hga : heapGet h a with
      | none =>
        rw [hga] at he
        have he' : some h = some h' := he
        injection he' with he''
        subst he''
        exact heapPres_refl h
      | some d =>
        rw [hga] at he
        by_cases hod : isObjTypeP d
        · have he' : ensureEntriesHeap fuel
              (heapSet h a (dictSet d "additionalProperties" (PVal.bool false)))
              (dictSet d "additionalProperties" (PVal.bool false)) = some h' := by
            have hr : (if isObjTypeP d then
                ensureEntriesHeap fuel
                  (heapSet h a (dictSet d "additionalProperties" (PVal.bool false)))
                  (dictSet d "additionalProperties" (PVal.bool false))
              else ensureEntriesHeap fuel (heapSet h a d) d) = some h' := he
            rwa [if_pos hod] at hr
          exact heapPres_trans _ _ _ (heapPres_heapSet_dictSet_apf h a d hga)
            (ihentries _ _ _ he')
        · have he' : ensureEntriesHeap fuel (heapSet h a d) d = some h' := by
            have hr : (if isObjTypeP d then
                ensureEntriesHeap fuel
                  (heapSet h a (dictSet d "additionalProperties" (PVal.bool false)))
                  (dictSet d "additionalProperties" (PVal.bool false))
              else ensureEntriesHeap fuel (heapSet h a d) d) = some h' := he
            rwa [if_neg hod] at hr
          exact heapPres_trans _ _ _ (heapPres_heapSet_same h a d hga)
            (ihentries _ _ _ he')
    · intro h es h' he
      cases es with
      | nil =>
        simp only [ensureEntriesHeap, Option.some.injEq] at he
        subst he; exact heapPres_refl h
      | cons kv rest =>
        obtain ⟨k, v⟩ := kv
        simp only [ensureEntriesHeap] at he
        cases h1eq : ensureEntryHeap fuel h k v with
        | none => rw [h1eq] at he; exact absurd he (by simp)
        | some h1 =>
          rw [h1eq] at he
          have he' : ensureEntriesHeap fuel h1 rest = some h' := he
          exact heapPres_trans _ _ _ (ihentry _ _ _ _ h1eq) (ihentries _ _ _ he')
    · intro h k v h' he
      simp only [ensureEntryHeap] at he
      cases v with
      | ref a => exact ihref _ _ _ he
      | list items =>
        by_cases hk : isSpecialKey k
        · have he' : ensureItemsHeap fuel h items = some h' := by
            have hr : (if isSpecialKey k then ensureItemsHeap fuel h items
              else some h) = some h' := he
            rwa [if_pos hk] at hr
          exact ihitems _ _ _ he'
        · have he' : some h = some h' := by
            have hr : (if isSpecialKey k then ensureItemsHeap fuel h items
              else some h) = some h' := he
            rwa [if_neg hk] at hr
          injection he' with he''
          subst he''
          exact heapPres_refl h
      | null =>
        have he' : some h = some h' := he
        injection he' with he''; subst he''; exact heapPres_refl h
      | bool b =>
        have he' : some h = some h' := he
        injection he' with he''; subst he''; exact heapPres_refl h
      | num n =>
        have he' : some h = some h' := he
        injection he' with he''; subst he''; exact heapPres_refl h
      | str ss =>
        have he' : some h = some h' := he
        injection he' with he''; subst he''; exact heapPres_refl h
    · intro h vs h' he
      cases vs with
      | nil =>
        simp only [ensureItemsHeap, Option.some.injEq] at he
        subst he; exact heapPres_refl h
      | cons v rest =>
        simp only [ensureItemsHeap] at he
        cases h1eq : ensureElemHeap fuel h v with
        | none => rw [h1eq] at he; exact absurd he (by simp)
        | some h1 =>
          rw [h1eq] at he
          have he' : ensureItemsHeap fuel h1 rest = some h' := he
          exact heapPres_trans _ _ _ (ihelem _ _ _ h1eq) (ihitems _ _ _ he')
    · intro h v h' he
      simp only [ensureElemHeap] at he
      cases v with
      | ref a => exact ihref _ _ _ he
      | null =>
        have he' : some h = some h' := he
        injection he' with he''; subst he''; exact heapPres_refl h
      | bool b =>
        have he' : some h = some h' := he
        injection he' with he''; subst he''; exact heapPres_refl h
      | num n =>
        have he' : some h = some h' := he
        injection he' with he''; subst he''; exact heapPres_refl h
      | str ss =>
        have he' : some h = some h' := he
        injection he' with he''; subst he''; exact heapPres_refl h
      | list items =>
        have he' : some h = some h' := he
        injection he' with he''; subst he''; exact heapPres_refl h

/-- Running the heap normalizer on an object-typed dict marks that dict
with `additionalProperties: false`, and the mark survives the rest of
the run. -/
theorem ensureRef_sets_apf : ∀ fuel h a h' d,
    ensureRefHeap fuel h a = some h' → heapGet h a = some d →
    isObjTypeP d = true →
    ∃ d', heapGet h' a = some d' ∧
      dictGet d' "additionalProperties" = some (PVal.bool false) := by
  intro fuel h a h' d he hga ho
  cases fuel with
  | zero => simp [ensureRefHeap] at he
  | succ fuel =>
    simp only [ensureRefHeap] at he
    rw [hga] at he
    have he' : ensureEntriesHeap fuel
        (heapSet h a (dictSet d "additionalProperties" (PVal.bool false)))
        (dictSet d "additionalProperties" (PVal.bool false)) = some h' := by
      have hr : (if isObjTypeP d then
          ensureEntriesHeap fuel
            (heapSet h a (dictSet d "additionalProperties" (PVal.bool false)))
            (dictSet d "additionalProperties" (PVal.bool false))
        else ensureEntriesHeap fuel (heapSet h a d) d) = some h' := he
      rwa [if_pos ho] at hr
    have hga1 : heapGet
        (heapSet h a (dictSet d "additionalProperties" (PVal.bool false))) a =
        some (dictSet d "additionalProperties" (PVal.bool false)) :=
      heapGet_heapSet_self h a _
    obtain ⟨d', hd', hkeep, hapf⟩ := (ensurePres fuel).2.1 _ _ _ he' _ _ hga1
    refine ⟨d', hd', ?_⟩
    rcases hapf with h1 | h1
    · rw [h1, dictGet_dictSet_self]
    · exact h1

/-- If the entry list being iterated contains `(k, ref n)` with the dict
at `n` object-typed, a completed iteration leaves the dict at `n`
carrying `additionalProperties: false`. -/
theorem entries_hit : ∀ es fuel h h' k n dn,
    ensureEntriesHeap fuel h es = some h' → (k, PVal.ref n) ∈ es →
    heapGet h n = some dn → isObjTypeP dn = true →
    ∃ dn', heapGet h' n = some dn' ∧
      dictGet dn' "additionalProperties" = some (PVal.bool false) := by
  intro es
  induction es with
  | nil =>
    intro fuel h h' k n dn he hmem hgn ho
    exact absurd hmem (List.not_mem_nil _)
  | cons kv rest ihrest =>
    intro fuel h h' k n dn he hmem hgn ho
    obtain ⟨k1, v1⟩ := kv
    cases fuel with
    | zero => simp [ensureEntriesHeap] at he
    | succ fuel =>
      simp only [ensureEntriesHeap] at he
      cases h1eq : ensureEntryHeap fuel h k1 v1 with
      | none => rw [h1eq] at he; exact absurd he (by simp)
      | some h1 =>
        rw [h1eq] at he
        have he' : ensureEntriesHeap fuel h1 rest = some h' := he
        rcases List.mem_cons.mp hmem with hhead | htail
        · injection hhead with hk hv
          rw [← hv] at h1eq
          cases fuel with
          | zero => simp [ensureEntryHeap] at h1eq
          | succ fuel2 =>
            have h1eq' : ensureRefHeap fuel2 h n = some h1 := h1eq
            obtain ⟨dn1, hdn1, hapf1⟩ :=
              ensureRef_sets_apf fuel2 h n h1 dn h1eq' hgn ho
            obtain ⟨dn', hdn', hkeep, hapf⟩ :=
              (ensurePres _).2.1 _ _ _ he' _ _ hdn1
            refine ⟨dn', hdn', ?_⟩
            rcases hapf with h2 | h2
            · rw [h2]; exact hapf1
            · exact h2
        · obtain ⟨dn1, hdn1, hkeep, _⟩ :=
            (ensurePres fuel).2.2.1 _ _ _ _ h1eq _ _ hgn
          have ho1 : isObjTypeP dn1 = true := by
            unfold isObjTypeP
            rw [hkeep "type" (by decide)]
            unfold isObjTypeP at ho
            exact ho
          exact ihrest fuel h1 h' k n dn1 he' htail hdn1 ho1

/-- C10 (amended): `extract_with_yaml_schema` copies only the top level
of the caller's `yaml_schema.schema` before normalizing in place, so
whenever the schema preparation completes, every object-typed dict
directly referenced by a (non-`additionalProperties`) entry of the
caller's original schema mapping has been mutated in the caller's own
heap: it now carries `additionalProperties: false`.  (Nested mappings
not reached by the recursion — e.g. inside a list under a non-special
key — are not mutated; see the counterexample.) -/
theorem yaml_copy_mutates_caller_schema :
    ∀ fuel h a d fresh h' k n dn,
    heapGet h a = some d → heapGet h fresh = none →
    (k, PVal.ref n) ∈ d → k ≠ "additionalProperties" →
    heapGet h n = some dn → isObjTypeP dn = true →
    copyAndNormalizeSchema fuel h a fresh = some h' →
    ∃ dn', heapGet h' n = some dn' ∧
      dictGet dn' "additionalProperties" = some (PVal.bool false) := by
  intro fuel h a d fresh h' k n dn hga hfresh hmem hkne hgn ho hrun
  unfold copyAndNormalizeSchema at hrun
  rw [hga] at hrun
  have hrun' : ensureRefHeap fuel (heapSet h fresh d) fresh = some h' := hrun
  have hnfresh : n ≠ fresh := by
    intro hnf
    rw [hnf, hfresh] at hgn
    exact Option.noConfusion hgn
  cases fuel with
  | zero => simp [ensureRefHeap] at hrun'
  | succ fuel =>
    have hgfresh : heapGet (heapSet h fresh d) fresh = some d :=
      heapGet_heapSet_self h fresh d
    simp only [ensureRefHeap] at hrun'
    rw [hgfresh] at hrun'
    by_cases hod : isObjTypeP d
    · have hrun2 : ensureEntriesHeap fuel
          (heapSet (heapSet h fresh d) fresh
            (dictSet d "additionalProperties" (PVal.bool false)))
          (dictSet d "additionalProperties" (PVal.bool false)) = some h' := by
        have hr : (if isObjTypeP d then
            ensureEntriesHeap fuel
              (heapSet (heapSet h fresh d) fresh
                (dictSet d "additionalProperties" (PVal.bool false)))
              (dictSet d "additionalProperties" (PVal.bool false))
          else ensureEntriesHeap fuel (heapSet (heapSet h fresh d) fresh d) d) =
            some h' := hrun'
        rwa [if_pos hod] at hr
      have hmem1 : (k, PVal.ref n) ∈
          dictSet d "additionalProperties" (PVal.bool false) :=
        mem_dictSet_ne d k (PVal.ref n) _ _ hmem hkne
      have hgn1 : heapGet (heapSet (heapSet h fresh d) fresh
          (dictSet d "additionalProperties" (PVal.bool false))) n = some dn := by
        rw [heapGet_heapSet_ne _ _ _ _ hnfresh, heapGet_heapSet_ne _ _ _ _ hnfresh]
        exact hgn
      exact entries_hit _ fuel _ h' k n dn hrun2 hmem1 hgn1 ho
    · have hrun2 : ensureEntriesHeap fuel
          (heapSet (heapSet h fresh d) fresh d) d = some h' := by
        have hr : (if isObjTypeP d then
            ensureEntriesHeap fuel
              (heapSet (heapSet h fresh d) fresh
                (dictSet d "additionalProperties" (PVal.bool false)))
              (dictSet d "additionalProperties" (PVal.bool false))
          else ensureEntriesHeap fuel (heapSet (heapSet h fresh d) fresh d) d) =
            some h' := hrun'
        rwa [if_neg hod] at hr
      have hgn1 : heapGet (heapSet (heapSet h fresh d) fresh d) n = some dn := by
        rw [heapGet_heapSet_ne _ _ _ _ hnfresh, heapGet_heapSet_ne _ _ _ _ hnfresh]
        exact hgn
      exact entries_hit _ fuel _ h' k n dn hrun2 hmem hgn1 ho

/-- C10 counterexample: the claim quantifies over every YAML schema
containing a nested object-typed mapping, but here the nested
object-typed dict (address 1, reached only through a list under the
non-special key "weird") is never visited: the call completes and the
caller's original schema objects are not mutated at all — the nested
object node gains no `additionalProperties` entry. -/
theorem yaml_mutation_counterexample :
    heapGet heapCX 1 = some [("type", PVal.str "object")] ∧
    isObjTypeP [("type", PVal.str "object")] = true ∧
    copyAndNormalizeSchema 10 heapCX 0 2 = some heapCXres ∧
    heapGet heapCXres 0 = heapGet heapCX 0 ∧
    heapGet heapCXres 1 = some [("type", PVal.str "object")] ∧
    dictGet [("type", PVal.str "object")] "additionalProperties" = none :=
  ⟨rfl, rfl, rfl, rfl, rfl, rfl⟩

theorem yaml_copy_mutates_caller_schema_witness :
    heapGet heapW 0 = some [("properties", PVal.ref 1)] ∧
    heapGet heapW 2 = none ∧
    ("properties", PVal.ref 1) ∈ [(("properties" : String), PVal.ref 1)] ∧
    ("properties" : String) ≠ "additionalProperties" ∧
    heapGet heapW 1 = some [("type", PVal.str "object")] ∧
    isObjTypeP [("type", PVal.str "object")] = true ∧
    copyAndNormalizeSchema 10 heapW 0 2 =
      some [(0, [("properties", PVal.ref 1)]),
            (1, [("type", PVal.str "object"),
                 ("additionalProperties", PVal.bool false)]),
            (2, [("properties", PVal.ref 1)])] ∧
    ∃ dn', heapGet [(0, [("properties", PVal.ref 1)]),
            (1, [("type", PVal.str "object"),
                 ("additionalProperties", PVal.bool false)]),
            (2, [("properties", PVal.ref 1)])] 1 = some dn' ∧
      dictGet dn' "additionalProperties" = some (PVal.bool false) :=
  ⟨rfl, rfl, List.mem_singleton.mpr rfl, by decide, rfl, rfl, rfl,
   yaml_copy_mutates_caller_schema 10 heapW 0 [("properties", PVal.ref 1)] 2
     [(0, [("properties", PVal.ref 1)]),
      (1, [("type", PVal.str "object"),
           ("additionalProperties", PVal.bool false)]),
      (2, [("properties", PVal.ref 1)])]
     "properties" 1 [("type", PVal.str "object")]
     rfl rfl (List.mem_singleton.mpr rfl) (by decide) rfl rfl rfl⟩
